import Mathlib

/-!
# Session cleaner and free-time budget: a shallow embedding

The definitions below follow `5-session-cleaner/main.go` and
`3-limit-service-time/main.go`.

* Instants (`time.Time`) and durations (`time.Duration`) are integers counting
  nanoseconds; `time.Time.Sub` saturates at the bounds of `int64`.
* The Go map `map[string]Session` is an association list of key/record pairs;
  `mapLookup`, `mapStore` and `mapDelete` are the map read `m[k]`, the map write
  `m[k] = v` and `delete(m, k)`.
* Every method of `SessionManager` runs under the manager's mutex, so a method is
  one atomic step on the store: it takes the clock value it reads with
  `time.Now()` and the store, and returns its result and the store it leaves.
* `HandleSession` receives the record copy made by `RunCleaner` as an argument,
  exactly as in the source.
-/

namespace SessionCleaner

/-- An instant, in nanoseconds. -/
abbrev Time := Int

/-- A `time.Duration`: a count of nanoseconds held in an `int64`. -/
abbrev Duration := Int

/-- Value of `time.Second`. -/
def Second : Duration := 1000000000

/-- Source constant `cachedTime = 5 * time.Second`. -/
def cachedTime : Duration := 5 * Second

/-- Source constant `tickTime = time.Second`. -/
def tickTime : Duration := Second

/-- Largest `time.Duration`. -/
def maxDuration : Duration := 2 ^ 63 - 1

/-- Smallest `time.Duration`. -/
def minDuration : Duration := -(2 ^ 63)

/-- The method `time.Time.Sub`: the difference `t - u`, saturated to the range of
`time.Duration`. -/
def timeSub (t u : Time) : Duration :=
  if t - u > maxDuration then maxDuration
  else if t - u < minDuration then minDuration
  else t - u

/-- Errors of the session manager: the package value `ErrSessionNotFound`, or an
error produced by the session-ID generator. -/
inductive Error where
  | sessionNotFound : Error
  | generator (msg : String) : Error
deriving DecidableEq

/-- Source value `ErrSessionNotFound`. -/
def ErrSessionNotFound : Error := Error.sessionNotFound

/-- Source type `Session`: the payload (a string-keyed map of values of type `V`)
and the instant of the last update. -/
structure Session (V : Type) where
  Data : List (String × V)
  LastUpdate : Time
deriving DecidableEq

/-- Map read `m[k]` with the comma-ok result. -/
def mapLookup {V : Type} : List (String × Session V) → String → Option (Session V)
  | [], _ => none
  | (k, v) :: rest, key => if k = key then some v else mapLookup rest key

/-- Map write `m[key] = val`: replaces the record of `key`, or adds one. -/
def mapStore {V : Type} : List (String × Session V) → String → Session V →
    List (String × Session V)
  | [], key, val => [(key, val)]
  | (k, v) :: rest, key, val =>
    if k = key then (key, val) :: rest else (k, v) :: mapStore rest key val

/-- Builtin `delete(m, key)`: removes `key`; nothing happens when it is absent. -/
def mapDelete {V : Type} (m : List (String × Session V)) (key : String) :
    List (String × Session V) :=
  m.filter (fun e => decide (e.1 ≠ key))

/-- Source type `SessionManager`; the mutex is represented by every method being
one atomic step. -/
structure SessionManager (V : Type) where
  sessions : List (String × Session V)
deriving DecidableEq

/-- The map made by `NewSessionManager`. -/
def NewSessionManager (V : Type) : SessionManager V := { sessions := [] }

/-- Method `Session.CleanAvailable`, with `now` the value of `time.Now()`. -/
def Session.CleanAvailable {V : Type} (s : Session V) (now : Time) : Bool :=
  decide (timeSub now s.LastUpdate > cachedTime)

/-- Method `SessionManager.CreateSession`; `gen` is the result of the call to
`MakeSessionID` and `now` the value of `time.Now()`. -/
def CreateSession {V : Type} (gen : Except Error String) (now : Time)
    (m : SessionManager V) : Except Error String × SessionManager V :=
  match gen with
  | Except.error err => (Except.error err, m)
  | Except.ok sessionID =>
    (Except.ok sessionID,
      { sessions := mapStore m.sessions sessionID { Data := [], LastUpdate := now } })

/-- Method `SessionManager.HandleSession`: `session` is the copy of the record
handed over by `RunCleaner`, `now` the value of `time.Now()` read by
`CleanAvailable`. -/
def HandleSession {V : Type} (now : Time) (m : SessionManager V) (sID : String)
    (session : Session V) : SessionManager V :=
  if session.CleanAvailable now then { sessions := mapDelete m.sessions sID } else m

/-- The tasks started by one pass of the loop of `RunCleaner`, run one after the
other in the order of `snap`, the list of key/record copies the loop ranged over. -/
def runTasks {V : Type} (now : Time) (snap : List (String × Session V))
    (m : SessionManager V) : SessionManager V :=
  snap.foldl (fun acc e => HandleSession now acc e.1 e.2) m

/-- One pass of the loop body of `RunCleaner`: range over the map, one
`HandleSession` per entry. -/
def RunCleaner {V : Type} (now : Time) (m : SessionManager V) : SessionManager V :=
  runTasks now m.sessions m

/-- Method `SessionManager.GetSessionData`. -/
def GetSessionData {V : Type} (m : SessionManager V) (sessionID : String) :
    Except Error (List (String × V)) × SessionManager V :=
  match mapLookup m.sessions sessionID with
  | none => (Except.error ErrSessionNotFound, m)
  | some session => (Except.ok session.Data, m)

/-- Method `SessionManager.UpdateSessionData`, with `now` the value of
`time.Now()`. -/
def UpdateSessionData {V : Type} (now : Time) (m : SessionManager V)
    (sessionID : String) (data : List (String × V)) :
    Except Error Unit × SessionManager V :=
  match mapLookup m.sessions sessionID with
  | none => (Except.error ErrSessionNotFound, m)
  | some _ =>
    (Except.ok (),
      { sessions := mapStore m.sessions sessionID { Data := data, LastUpdate := now } })

/-- One atomic step on the store: a client call or one sweeper task. -/
inductive Op (V : Type) where
  | create (gen : Except Error String) : Op V
  | get (sessionID : String) : Op V
  | update (sessionID : String) (data : List (String × V)) : Op V
  | handle (sID : String) (session : Session V) : Op V

/-- The store left by the step `op` taken when the clock reads `now`. -/
def step {V : Type} (now : Time) (op : Op V) (m : SessionManager V) : SessionManager V :=
  match op with
  | Op.create gen => (CreateSession gen now m).2
  | Op.get sessionID => (GetSessionData m sessionID).2
  | Op.update sessionID data => (UpdateSessionData now m sessionID data).2
  | Op.handle sID session => HandleSession now m sID session

/-- The store left by a sequence of steps, each paired with its clock value. -/
def run {V : Type} (trace : List (Time × Op V)) (m : SessionManager V) : SessionManager V :=
  trace.foldl (fun acc p => step p.1 p.2 acc) m

end SessionCleaner

namespace LimitServiceTime

/-- A `time.Duration`: a count of nanoseconds held in an `int64`. -/
abbrev Duration := Int

/-- Value of `time.Second`. -/
def Second : Duration := 1000000000

/-- Source constant `freeDuration = 10 * time.Second`. -/
def freeDuration : Duration := 10 * Second

/-- Wrap-around of `int64` arithmetic. -/
def wrapInt64 (x : Int) : Int := (x + 2 ^ 63) % 2 ^ 64 - 2 ^ 63

/-- The conversion `int64(d.Seconds())` (also `time.Duration(d.Seconds())`): the
whole seconds in `d`, truncated toward zero.  `Seconds` computes
`float64(d / Second) + float64(d % Second) / 1e9`; the truncation of that sum is
the integer quotient whenever `|d| < 2 ^ 52`, the range used here. -/
def wholeSeconds (d : Duration) : Int := Int.tdiv d Second

/-- Source type `User`. -/
structure User where
  ID : Int
  IsPremium : Bool
  TimeUsed : Int
deriving DecidableEq

/-- The argument of `time.After` in `HandleRequest`:
`freeDuration - time.Duration(time.Duration(u.TimeUsed).Seconds())`. -/
def deadline (u : User) : Duration :=
  wrapInt64 (freeDuration - wholeSeconds u.TimeUsed)

/-- Function `HandleRequest`.  The process is described by the duration it runs
for, as measured by `time.Since(start)` (`none`: it never returns).  The `select`
takes the `result` branch when the process finishes before the timer fires and
the timer branch otherwise.  The result is `none` when `HandleRequest` does not
return. -/
def HandleRequest (process : Option Duration) (u : User) : Option (Bool × User) :=
  if u.IsPremium then
    match process with
    | none => none
    | some _ => some (true, u)
  else
    match process with
    | some timeConsumed =>
      if timeConsumed < deadline u then
        some (true, { u with TimeUsed := wrapInt64 (u.TimeUsed + wholeSeconds timeConsumed) })
      else
        some (false, { u with TimeUsed := freeDuration })
    | none => some (false, { u with TimeUsed := freeDuration })

end LimitServiceTime

namespace SessionCleaner

/-! ## Facts about the clock and the map operations -/

theorem timeSub_gt_cachedTime (now t : Time) :
    timeSub now t > cachedTime ↔ now - t > cachedTime := by
  unfold timeSub cachedTime Second maxDuration minDuration
  split_ifs <;> constructor <;> intro h
  all_goals (simp only [Time, Duration] at *; omega)

theorem cleanAvailable_iff {V : Type} (s : Session V) (now : Time) :
    s.CleanAvailable now = true ↔ now - s.LastUpdate > cachedTime := by
  simp [Session.CleanAvailable, timeSub_gt_cachedTime]

theorem cleanAvailable_false_iff {V : Type} (s : Session V) (now : Time) :
    s.CleanAvailable now = false ↔ now - s.LastUpdate ≤ cachedTime := by
  rw [← Bool.not_eq_true, cleanAvailable_iff]
  simp only [Time, Duration]
  omega

theorem mapLookup_mapStore_self {V : Type} (m : List (String × Session V)) (key : String)
    (val : Session V) : mapLookup (mapStore m key val) key = some val := by
  induction m with
  | nil => simp [mapStore, mapLookup]
  | cons e rest ih =>
    obtain ⟨k, v⟩ := e
    by_cases h : k = key
    · simp [mapStore, mapLookup, h]
    · simp [mapStore, mapLookup, h, ih]

theorem mapLookup_mapStore_ne {V : Type} (m : List (String × Session V)) (key : String)
    (val : Session V) (other : String) (hne : other ≠ key) :
    mapLookup (mapStore m key val) other = mapLookup m other := by
  induction m with
  | nil => simp [mapStore, mapLookup, Ne.symm hne]
  | cons e rest ih =>
    obtain ⟨k, v⟩ := e
    by_cases h : k = key
    · subst h
      simp [mapStore, mapLookup, Ne.symm hne]
    · by_cases h2 : k = other
      · subst h2
        simp [mapStore, mapLookup, h]
      · simp [mapStore, mapLookup, h, h2, ih]

theorem mapStore_of_lookup_none {V : Type} (m : List (String × Session V)) (key : String)
    (val : Session V) (habs : mapLookup m key = none) :
    mapStore m key val = m ++ [(key, val)] := by
  induction m with
  | nil => simp [mapStore]
  | cons e rest ih =>
    obtain ⟨k, v⟩ := e
    by_cases h : k = key
    · simp [mapLookup, h] at habs
    · simp [mapLookup, h] at habs
      simp [mapStore, h, ih habs]

theorem mapLookup_mapDelete_self {V : Type} (m : List (String × Session V)) (key : String) :
    mapLookup (mapDelete m key) key = none := by
  induction m with
  | nil => simp [mapDelete, mapLookup]
  | cons e rest ih =>
    obtain ⟨k, v⟩ := e
    by_cases h : k = key
    · simpa [mapDelete, List.filter_cons, h] using ih
    · simpa [mapDelete, List.filter_cons, h, mapLookup] using ih

theorem mapLookup_mapDelete_ne {V : Type} (m : List (String × Session V)) (key : String)
    (other : String) (hne : other ≠ key) :
    mapLookup (mapDelete m key) other = mapLookup m other := by
  induction m with
  | nil => simp [mapDelete, mapLookup]
  | cons e rest ih =>
    obtain ⟨k, v⟩ := e
    by_cases h : k = key
    · subst h
      have hko : k ≠ other := Ne.symm hne
      simpa [mapDelete, List.filter_cons, mapLookup, hko] using ih
    · by_cases h2 : k = other
      · subst h2
        simp [mapDelete, List.filter_cons, h, mapLookup]
      · simpa [mapDelete, List.filter_cons, h, mapLookup, h2] using ih

theorem mapDelete_of_lookup_none {V : Type} (m : List (String × Session V)) (key : String)
    (habs : mapLookup m key = none) : mapDelete m key = m := by
  induction m with
  | nil => simp [mapDelete]
  | cons e rest ih =>
    obtain ⟨k, v⟩ := e
    by_cases h : k = key
    · simp [mapLookup, h] at habs
    · simp [mapLookup, h] at habs
      have hrest := ih habs
      simp only [mapDelete] at hrest
      simp only [mapDelete, List.filter_cons, h, ne_eq, not_false_eq_true, decide_True,
        if_true]
      rw [hrest]

theorem mapDelete_mapDelete {V : Type} (m : List (String × Session V)) (key : String) :
    mapDelete (mapDelete m key) key = mapDelete m key :=
  mapDelete_of_lookup_none _ _ (mapLookup_mapDelete_self m key)

/-! ## Client operations -/

/-- C2: `UpdateSessionData` on a key present in the store returns no error, leaves
that key mapped to the record made of the new data and the current clock value
(the old data is dropped, not merged), and leaves every other key mapped to the
record it had. -/
theorem updateSessionData_present {V : Type} (m : SessionManager V) (k : String)
    (d : List (String × V)) (now : Time) (old : Session V)
    (hpresent : mapLookup m.sessions k = some old) :
    (UpdateSessionData now m k d).1 = Except.ok () ∧
    mapLookup (UpdateSessionData now m k d).2.sessions k
      = some { Data := d, LastUpdate := now } ∧
    ∀ other : String, other ≠ k →
      mapLookup (UpdateSessionData now m k d).2.sessions other
        = mapLookup m.sessions other := by
  refine ⟨?_, ?_, ?_⟩
  · simp [UpdateSessionData, hpresent]
  · simp [UpdateSessionData, hpresent, mapLookup_mapStore_self]
  · intro other hne
    simp [UpdateSessionData, hpresent, mapLookup_mapStore_ne _ _ _ other hne]

theorem updateSessionData_present_witness :
    mapLookup (UpdateSessionData 7 (⟨[("a", ⟨[("x", "1"), ("y", "2")], 3⟩), ("b", ⟨[], 4⟩)]⟩ :
        SessionManager String) "a" [("z", "9")]).2.sessions "a"
      = some { Data := [("z", "9")], LastUpdate := 7 } :=
  (updateSessionData_present
    (⟨[("a", ⟨[("x", "1"), ("y", "2")], 3⟩), ("b", ⟨[], 4⟩)]⟩ : SessionManager String)
    "a" [("z", "9")] 7 ⟨[("x", "1"), ("y", "2")], 3⟩ (by decide)).2.1

/-- C3: on a key absent from the store, `GetSessionData` and `UpdateSessionData`
both return `ErrSessionNotFound` and leave the store exactly as it was. -/
theorem absent_key_not_found {V : Type} (m : SessionManager V) (k : String)
    (habsent : mapLookup m.sessions k = none) :
    GetSessionData m k = (Except.error ErrSessionNotFound, m) ∧
    ∀ (now : Time) (d : List (String × V)),
      UpdateSessionData now m k d = (Except.error ErrSessionNotFound, m) := by
  simp [GetSessionData, UpdateSessionData, habsent]

theorem absent_key_not_found_witness :
    GetSessionData (⟨[("a", ⟨[("x", "1")], 3⟩)]⟩ : SessionManager String) "b"
      = (Except.error ErrSessionNotFound, ⟨[("a", ⟨[("x", "1")], 3⟩)]⟩) ∧
    UpdateSessionData 9 (⟨[("a", ⟨[("x", "1")], 3⟩)]⟩ : SessionManager String) "b" [("z", "9")]
      = (Except.error ErrSessionNotFound, ⟨[("a", ⟨[("x", "1")], 3⟩)]⟩) :=
  ⟨(absent_key_not_found (⟨[("a", ⟨[("x", "1")], 3⟩)]⟩ : SessionManager String) "b"
      (by decide)).1,
   (absent_key_not_found (⟨[("a", ⟨[("x", "1")], 3⟩)]⟩ : SessionManager String) "b"
      (by decide)).2 9 [("z", "9")]⟩

/-- C4: on a key present in the store, `GetSessionData` returns the data stored for
it with no error and leaves the store as it was; the record of the key, its
`LastUpdate` included, is the same after the read. -/
theorem getSessionData_present {V : Type} (m : SessionManager V) (k : String)
    (s : Session V) (hpresent : mapLookup m.sessions k = some s) :
    GetSessionData m k = (Except.ok s.Data, m) ∧
    mapLookup (GetSessionData m k).2.sessions k = some s := by
  simp [GetSessionData, hpresent]

theorem getSessionData_present_witness :
    GetSessionData (⟨[("a", ⟨[("x", "1")], 3⟩), ("b", ⟨[], 4⟩)]⟩ : SessionManager String) "a"
      = (Except.ok [("x", "1")], ⟨[("a", ⟨[("x", "1")], 3⟩), ("b", ⟨[], 4⟩)]⟩) :=
  (getSessionData_present
    (⟨[("a", ⟨[("x", "1")], 3⟩), ("b", ⟨[], 4⟩)]⟩ : SessionManager String) "a"
    ⟨[("x", "1")], 3⟩ (by decide)).1

/-- C5: when the ID generator returns a key not in the store, `CreateSession`
returns that key with no error, the store becomes the old one plus that key mapped
to the record with empty data and the current clock value, every other key keeps
its record, and an immediate `GetSessionData` of the key returns empty data; when
the generator fails with an error, `CreateSession` returns that error and the store
is unchanged; `CreateSession` returns an error only when the generator did. -/
theorem createSession_spec {V : Type} (m : SessionManager V) (now : Time) :
    (∀ id : String, mapLookup m.sessions id = none →
      (CreateSession (Except.ok id) now m).1 = Except.ok id ∧
      (CreateSession (Except.ok id) now m).2.sessions
        = m.sessions ++ [(id, { Data := [], LastUpdate := now })] ∧
      mapLookup (CreateSession (Except.ok id) now m).2.sessions id
        = some { Data := [], LastUpdate := now } ∧
      (∀ other : String, other ≠ id →
        mapLookup (CreateSession (Except.ok id) now m).2.sessions other
          = mapLookup m.sessions other) ∧
      (GetSessionData (CreateSession (Except.ok id) now m).2 id).1 = Except.ok []) ∧
    (∀ e : Error, CreateSession (Except.error e) now m = (Except.error e, m)) ∧
    (∀ (gen : Except Error String) (e : Error),
      (CreateSession gen now m).1 = Except.error e → gen = Except.error e) := by
  refine ⟨?_, ?_, ?_⟩
  · intro id hfresh
    refine ⟨rfl, ?_, ?_, ?_, ?_⟩
    · simp [CreateSession, mapStore_of_lookup_none _ _ _ hfresh]
    · simp [CreateSession, mapLookup_mapStore_self]
    · intro other hne
      simp [CreateSession, mapLookup_mapStore_ne _ _ _ other hne]
    · simp [CreateSession, GetSessionData, mapLookup_mapStore_self]
  · intro e
    rfl
  · intro gen e h
    cases gen with
    | error err => simpa [CreateSession] using h
    | ok id => simp [CreateSession] at h

theorem createSession_spec_witness :
    (CreateSession (Except.ok "n") 8 (⟨[("a", ⟨[("x", "1")], 3⟩)]⟩ : SessionManager String)).2.sessions
      = [("a", ⟨[("x", "1")], 3⟩)] ++ [("n", { Data := [], LastUpdate := 8 })] :=
  ((createSession_spec (⟨[("a", ⟨[("x", "1")], 3⟩)]⟩ : SessionManager String) 8).1 "n"
    (by decide)).2.1

/-! ## The sweeper task -/

theorem handleSession_of_not_stale {V : Type} (now : Time) (m : SessionManager V)
    (sID : String) (session : Session V) (hfresh : now - session.LastUpdate ≤ cachedTime) :
    HandleSession now m sID session = m := by
  have hfalse : session.CleanAvailable now = false :=
    (cleanAvailable_false_iff session now).2 hfresh
  simp [HandleSession, hfalse]

theorem handleSession_of_stale {V : Type} (now : Time) (m : SessionManager V)
    (sID : String) (session : Session V) (hstale : now - session.LastUpdate > cachedTime) :
    HandleSession now m sID session = { sessions := mapDelete m.sessions sID } := by
  have htrue : session.CleanAvailable now = true :=
    (cleanAvailable_iff session now).2 hstale
  simp [HandleSession, htrue]

theorem mapLookup_handleSession_ne {V : Type} (now : Time) (m : SessionManager V)
    (sID : String) (session : Session V) (other : String) (hne : other ≠ sID) :
    mapLookup (HandleSession now m sID session).sessions other
      = mapLookup m.sessions other := by
  unfold HandleSession
  split_ifs
  · exact mapLookup_mapDelete_ne _ _ other hne
  · rfl

/-- C6: a record of key `k` whose `LastUpdate` is `T` survives the sweeper task run
on its copy at any `now` with `now - T ≤ cachedTime` (equality included): the store
is unchanged and `GetSessionData k` still succeeds.  This holds for the record just
made by `CreateSession` at `T`, and for the record just written by
`UpdateSessionData` at `T`, whatever `LastUpdate` the key had before the update. -/
theorem ttl_lower_bound {V : Type} (m : SessionManager V) (k : String) (now : Time) :
    (∀ s : Session V, mapLookup m.sessions k = some s →
      now - s.LastUpdate ≤ cachedTime →
      HandleSession now m k s = m ∧
      (GetSessionData (HandleSession now m k s) k).1 = Except.ok s.Data) ∧
    (∀ T : Time, now - T ≤ cachedTime →
      mapLookup (CreateSession (Except.ok k) T m).2.sessions k
        = some { Data := [], LastUpdate := T } ∧
      HandleSession now (CreateSession (Except.ok k) T m).2 k { Data := [], LastUpdate := T }
        = (CreateSession (Except.ok k) T m).2 ∧
      (GetSessionData (HandleSession now (CreateSession (Except.ok k) T m).2 k
        { Data := [], LastUpdate := T }) k).1 = Except.ok []) ∧
    (∀ (T : Time) (d : List (String × V)) (old : Session V),
      mapLookup m.sessions k = some old → now - T ≤ cachedTime →
      mapLookup (UpdateSessionData T m k d).2.sessions k
        = some { Data := d, LastUpdate := T } ∧
      HandleSession now (UpdateSessionData T m k d).2 k { Data := d, LastUpdate := T }
        = (UpdateSessionData T m k d).2 ∧
      (GetSessionData (HandleSession now (UpdateSessionData T m k d).2 k
        { Data := d, LastUpdate := T }) k).1 = Except.ok d) := by
  refine ⟨?_, ?_, ?_⟩
  · intro s hpresent hfresh
    rw [handleSession_of_not_stale now m k s hfresh]
    exact ⟨rfl, by simp [GetSessionData, hpresent]⟩
  · intro T hfresh
    have hlook : mapLookup (CreateSession (Except.ok k) T m).2.sessions k
        = some { Data := [], LastUpdate := T } := by
      simp [CreateSession, mapLookup_mapStore_self]
    rw [handleSession_of_not_stale now _ k { Data := [], LastUpdate := T } hfresh]
    exact ⟨hlook, rfl, by simp [GetSessionData, hlook]⟩
  · intro T d old hpresent hfresh
    have hlook : mapLookup (UpdateSessionData T m k d).2.sessions k
        = some { Data := d, LastUpdate := T } := by
      simp [UpdateSessionData, hpresent, mapLookup_mapStore_self]
    rw [handleSession_of_not_stale now _ k { Data := d, LastUpdate := T } hfresh]
    exact ⟨hlook, rfl, by simp [GetSessionData, hlook]⟩

theorem ttl_lower_bound_witness :
    HandleSession 5000000100
        (UpdateSessionData 100 (⟨[("a", ⟨[("x", "1")], 0⟩)]⟩ : SessionManager String)
          "a" [("z", "9")]).2 "a" { Data := [("z", "9")], LastUpdate := 100 }
      = (UpdateSessionData 100 (⟨[("a", ⟨[("x", "1")], 0⟩)]⟩ : SessionManager String)
          "a" [("z", "9")]).2 :=
  ((ttl_lower_bound (⟨[("a", ⟨[("x", "1")], 0⟩)]⟩ : SessionManager String) "a"
    5000000100).2.2 100 [("z", "9")] ⟨[("x", "1")], 0⟩ (by decide) (by decide)).2.1

theorem cleanAvailable_mono {V : Type} (s : Session V) (now later : Time)
    (hclock : now ≤ later) (hstale : s.CleanAvailable now = true) :
    s.CleanAvailable later = true := by
  rw [cleanAvailable_iff] at hstale ⊢
  simp only [Time, Duration] at *
  omega

/-- C8: the sweeper task `HandleSession` for key `k` is a total function with no
error result; it leaves the store as it was when `k` is absent, and it leaves every
key other than `k` mapped to the record it had.  Each run reads the clock itself:
for a first run at `now` and a second run on the same copy at any `later` with
`now ≤ later`, the two runs together leave the store that the single run at `later`
leaves (with `later = now`: the second run changes nothing); and once the first run
has removed `k`, a second run at any clock value leaves the store of the first. -/
theorem handleSession_idempotent {V : Type} (now : Time) (m : SessionManager V)
    (k : String) (snapshot : Session V) :
    (mapLookup m.sessions k = none → HandleSession now m k snapshot = m) ∧
    (∀ other : String, other ≠ k →
      mapLookup (HandleSession now m k snapshot).sessions other
        = mapLookup m.sessions other) ∧
    (∀ later : Time, now ≤ later →
      HandleSession later (HandleSession now m k snapshot) k snapshot
        = HandleSession later m k snapshot) ∧
    HandleSession now (HandleSession now m k snapshot) k snapshot
      = HandleSession now m k snapshot ∧
    (∀ again : Time, snapshot.CleanAvailable now = true →
      HandleSession again (HandleSession now m k snapshot) k snapshot
        = HandleSession now m k snapshot) := by
  have twice : ∀ later : Time, now ≤ later →
      HandleSession later (HandleSession now m k snapshot) k snapshot
        = HandleSession later m k snapshot := by
    intro later hclock
    by_cases hfirst : snapshot.CleanAvailable now = true
    · have hsecond : snapshot.CleanAvailable later = true :=
        cleanAvailable_mono snapshot now later hclock hfirst
      simp [HandleSession, hfirst, hsecond, mapDelete_mapDelete]
    · simp [HandleSession, hfirst]
  refine ⟨?_, ?_, twice, twice now (le_refl now), ?_⟩
  · intro habsent
    unfold HandleSession
    split_ifs
    · rw [mapDelete_of_lookup_none _ _ habsent]
    · rfl
  · intro other hne
    exact mapLookup_handleSession_ne now m k snapshot other hne
  · intro again hfirst
    by_cases hsecond : snapshot.CleanAvailable again = true
    · simp [HandleSession, hfirst, hsecond, mapDelete_mapDelete]
    · simp [HandleSession, hfirst, hsecond]

theorem handleSession_idempotent_witness :
    HandleSession 6000000000 (⟨[("a", ⟨[("x", "1")], 3⟩)]⟩ : SessionManager String) "b"
        ⟨[], 0⟩
      = ⟨[("a", ⟨[("x", "1")], 3⟩)]⟩ ∧
    HandleSession 5000000001
        (HandleSession 5000000000 (⟨[("a", ⟨[("x", "1")], 0⟩)]⟩ : SessionManager String) "a"
          ⟨[("x", "1")], 0⟩) "a" ⟨[("x", "1")], 0⟩
      = HandleSession 5000000001 (⟨[("a", ⟨[("x", "1")], 0⟩)]⟩ : SessionManager String) "a"
          ⟨[("x", "1")], 0⟩ ∧
    HandleSession 5000000001 (⟨[("a", ⟨[("x", "1")], 0⟩)]⟩ : SessionManager String) "a"
        ⟨[("x", "1")], 0⟩ = ⟨[]⟩ ∧
    HandleSession 5000000000 (⟨[("a", ⟨[("x", "1")], 0⟩)]⟩ : SessionManager String) "a"
        ⟨[("x", "1")], 0⟩ = ⟨[("a", ⟨[("x", "1")], 0⟩)]⟩ :=
  ⟨(handleSession_idempotent 6000000000
      (⟨[("a", ⟨[("x", "1")], 3⟩)]⟩ : SessionManager String) "b" ⟨[], 0⟩).1 (by decide),
   (handleSession_idempotent 5000000000
      (⟨[("a", ⟨[("x", "1")], 0⟩)]⟩ : SessionManager String) "a" ⟨[("x", "1")], 0⟩).2.2.1
      5000000001 (by decide),
   by decide, by decide⟩

/-! ## One sweep cycle -/

theorem mapLookup_handleSession {V : Type} (now : Time) (m : SessionManager V)
    (sID : String) (session : Session V) (k : String) :
    mapLookup (HandleSession now m sID session).sessions k
      = if sID = k ∧ session.CleanAvailable now = true then none
        else mapLookup m.sessions k := by
  by_cases hk : sID = k
  · subst hk
    by_cases hc : session.CleanAvailable now = true
    · simp [HandleSession, hc, mapLookup_mapDelete_self]
    · simp [HandleSession, hc]
  · have hne : k ≠ sID := fun h => hk h.symm
    simp [hk, mapLookup_handleSession_ne now m sID session k hne]

theorem mapLookup_runTasks {V : Type} (now : Time) (snap : List (String × Session V))
    (m : SessionManager V) (k : String) :
    mapLookup (runTasks now snap m).sessions k
      = if ∃ e ∈ snap, e.1 = k ∧ e.2.CleanAvailable now = true then none
        else mapLookup m.sessions k := by
  induction snap generalizing m with
  | nil => simp [runTasks]
  | cons e rest ih =>
    have hunfold : runTasks now (e :: rest) m
        = runTasks now rest (HandleSession now m e.1 e.2) := rfl
    rw [hunfold, ih, mapLookup_handleSession]
    by_cases hrest : ∃ e' ∈ rest, e'.1 = k ∧ e'.2.CleanAvailable now = true
    · have hall : ∃ e' ∈ e :: rest, e'.1 = k ∧ e'.2.CleanAvailable now = true := by
        obtain ⟨e', hmem, hp⟩ := hrest
        exact ⟨e', List.mem_cons_of_mem _ hmem, hp⟩
      simp only [if_pos hrest, if_pos hall]
    · simp only [if_neg hrest]
      by_cases hhead : e.1 = k ∧ e.2.CleanAvailable now = true
      · have hall : ∃ e' ∈ e :: rest, e'.1 = k ∧ e'.2.CleanAvailable now = true :=
          ⟨e, List.mem_cons_self _ _, hhead⟩
        simp only [if_pos hhead, if_pos hall]
      · have hall : ¬ ∃ e' ∈ e :: rest, e'.1 = k ∧ e'.2.CleanAvailable now = true := by
          rintro ⟨e', hmem, hp⟩
          rcases List.mem_cons.1 hmem with heq | hmem'
          · exact hhead (heq ▸ hp)
          · exact hrest ⟨e', hmem', hp⟩
        simp only [if_neg hhead, if_neg hall]

theorem mem_of_mapLookup {V : Type} (l : List (String × Session V)) (k : String)
    (s : Session V) (h : mapLookup l k = some s) : (k, s) ∈ l := by
  induction l with
  | nil => simp [mapLookup] at h
  | cons e rest ih =>
    obtain ⟨k', v⟩ := e
    by_cases hk : k' = k
    · subst hk
      simp [mapLookup] at h
      simp [h]
    · simp [mapLookup, hk] at h
      exact List.mem_cons_of_mem _ (ih h)

theorem mapLookup_of_mem {V : Type} (l : List (String × Session V)) (k : String)
    (s : Session V) (hnodup : (l.map Prod.fst).Nodup) (hmem : (k, s) ∈ l) :
    mapLookup l k = some s := by
  induction l with
  | nil => simp at hmem
  | cons e rest ih =>
    obtain ⟨k', v⟩ := e
    simp only [List.map_cons, List.nodup_cons] at hnodup
    rcases List.mem_cons.1 hmem with heq | hmem'
    · simp only [Prod.mk.injEq] at heq
      simp [mapLookup, heq.1, heq.2]
    · have hk : k' ≠ k := by
        intro hk
        apply hnodup.1
        rw [hk]
        exact List.mem_map.2 ⟨(k, s), hmem', rfl⟩
      simp [mapLookup, hk, ih hnodup.2 hmem']

theorem keys_mapStore {V : Type} (l : List (String × Session V)) (key : String)
    (val : Session V) :
    (mapStore l key val).map Prod.fst
      = if key ∈ l.map Prod.fst then l.map Prod.fst else l.map Prod.fst ++ [key] := by
  induction l with
  | nil => simp [mapStore]
  | cons e rest ih =>
    obtain ⟨k, v⟩ := e
    by_cases hk : k = key
    · subst hk
      simp [mapStore]
    · have hk2 : key ≠ k := fun h => hk h.symm
      by_cases hmem : key ∈ rest.map Prod.fst
      · rw [if_pos hmem] at ih
        have hmem2 : key ∈ ((k, v) :: rest).map Prod.fst := by
          rw [List.map_cons]
          exact List.mem_cons_of_mem _ hmem
        rw [if_pos hmem2]
        simp only [mapStore, if_neg hk, List.map_cons, ih]
      · rw [if_neg hmem] at ih
        have hmem2 : ¬ key ∈ ((k, v) :: rest).map Prod.fst := by
          rw [List.map_cons, List.mem_cons]
          rintro (h | h)
          · exact hk2 h
          · exact hmem h
        rw [if_neg hmem2]
        simp only [mapStore, if_neg hk, List.map_cons, ih, List.cons_append]

theorem nodup_keys_mapStore {V : Type} (l : List (String × Session V)) (key : String)
    (val : Session V) (h : (l.map Prod.fst).Nodup) :
    ((mapStore l key val).map Prod.fst).Nodup := by
  rw [keys_mapStore]
  split_ifs with hmem
  · exact h
  · rw [List.nodup_append]
    refine ⟨h, List.nodup_singleton _, ?_⟩
    intro a ha hb
    rw [List.mem_singleton] at hb
    exact hmem (hb ▸ ha)

theorem nodup_keys_mapDelete {V : Type} (l : List (String × Session V)) (key : String)
    (h : (l.map Prod.fst).Nodup) : ((mapDelete l key).map Prod.fst).Nodup :=
  (List.filter_sublist l).map Prod.fst |>.nodup h

theorem nodup_keys_step {V : Type} (t : Time) (op : Op V) (m : SessionManager V)
    (h : (m.sessions.map Prod.fst).Nodup) : ((step t op m).sessions.map Prod.fst).Nodup := by
  cases op with
  | create gen =>
    cases gen with
    | error e => exact h
    | ok id => exact nodup_keys_mapStore _ _ _ h
  | get id =>
    simp only [step, GetSessionData]
    split <;> exact h
  | update id d =>
    simp only [step, UpdateSessionData]
    split
    · exact h
    · exact nodup_keys_mapStore _ _ _ h
  | handle id snapshot =>
    simp only [step, HandleSession]
    split_ifs
    · exact nodup_keys_mapDelete _ _ h
    · exact h

theorem nodup_keys_run {V : Type} (trace : List (Time × Op V)) :
    ((run trace (NewSessionManager V)).sessions.map Prod.fst).Nodup := by
  have gen : ∀ (tr : List (Time × Op V)) (m : SessionManager V),
      (m.sessions.map Prod.fst).Nodup → ((run tr m).sessions.map Prod.fst).Nodup := by
    intro tr
    induction tr with
    | nil => intro m h; exact h
    | cons p rest ih =>
      intro m h
      exact ih (step p.1 p.2 m) (nodup_keys_step p.1 p.2 m h)
  exact gen trace _ (by simp [NewSessionManager])

/-- C7: in a store whose keys are pairwise distinct (as in every Go map), let the
tasks of one sweep cycle run at `now`, in any order, on the copies `RunCleaner`
took of all records, with no client operation in between.  The store left holds
exactly the records with `now - LastUpdate ≤ cachedTime`, each as it was; so a
record whose `LastUpdate` is `T` is gone, and `GetSessionData` returns
`ErrSessionNotFound`, once `now > T + cachedTime`.  The same holds for the tasks
taken in map order (`RunCleaner`). -/
theorem sweep_cycle_spec {V : Type} (m : SessionManager V) (now : Time)
    (snap : List (String × Session V))
    (hkeys : (m.sessions.map Prod.fst).Nodup) (hsnap : snap.Perm m.sessions) :
    (∀ k : String, mapLookup (runTasks now snap m).sessions k =
      match mapLookup m.sessions k with
      | some s => if now - s.LastUpdate ≤ cachedTime then some s else none
      | none => none) ∧
    (∀ (k : String) (s : Session V), mapLookup m.sessions k = some s →
      now > s.LastUpdate + cachedTime →
      GetSessionData (runTasks now snap m) k
        = (Except.error ErrSessionNotFound, runTasks now snap m)) ∧
    (∀ k : String, mapLookup (RunCleaner now m).sessions k =
      match mapLookup m.sessions k with
      | some s => if now - s.LastUpdate ≤ cachedTime then some s else none
      | none => none) := by
  have key : ∀ (snap' : List (String × Session V)), snap'.Perm m.sessions →
      ∀ k : String, mapLookup (runTasks now snap' m).sessions k =
        match mapLookup m.sessions k with
        | some s => if now - s.LastUpdate ≤ cachedTime then some s else none
        | none => none := by
    intro snap' hperm k
    rw [mapLookup_runTasks]
    cases hlook : mapLookup m.sessions k with
    | none =>
      have hno : ¬ ∃ e ∈ snap', e.1 = k ∧ e.2.CleanAvailable now = true := by
        rintro ⟨⟨k', s'⟩, hmem, hk, _⟩
        simp only at hk
        subst hk
        have := mapLookup_of_mem _ _ _ hkeys (hperm.mem_iff.1 hmem)
        rw [hlook] at this
        exact Option.noConfusion this
      simp [hno]
    | some s =>
      by_cases hfresh : now - s.LastUpdate ≤ cachedTime
      · have hno : ¬ ∃ e ∈ snap', e.1 = k ∧ e.2.CleanAvailable now = true := by
          rintro ⟨⟨k', s'⟩, hmem, hk, hstale⟩
          simp only at hk hstale
          subst hk
          have hs := mapLookup_of_mem _ _ _ hkeys (hperm.mem_iff.1 hmem)
          rw [hlook] at hs
          have hss : s = s' := Option.some.inj hs
          subst hss
          rw [(cleanAvailable_false_iff s now).2 hfresh] at hstale
          exact Bool.noConfusion hstale
        simp [hno, hfresh]
      · have hyes : ∃ e ∈ snap', e.1 = k ∧ e.2.CleanAvailable now = true :=
          ⟨(k, s), hperm.mem_iff.2 (mem_of_mapLookup _ _ _ hlook), rfl,
            (cleanAvailable_iff s now).2 (not_le.1 hfresh)⟩
        simp [hyes, hfresh]
  refine ⟨key snap hsnap, ?_, key m.sessions (List.Perm.refl _)⟩
  intro k s hlook hlate
  have hgone : mapLookup (runTasks now snap m).sessions k = none := by
    rw [key snap hsnap k, hlook]
    have hnot : ¬ now - s.LastUpdate ≤ cachedTime := by
      simp only [Time, Duration] at *
      omega
    simp [hnot]
  simp [GetSessionData, hgone]

theorem sweep_cycle_spec_witness :
    GetSessionData (runTasks 6000000000 [("b", ⟨[], 2000000000⟩), ("a", ⟨[("x", "1")], 0⟩)]
        (⟨[("a", ⟨[("x", "1")], 0⟩), ("b", ⟨[], 2000000000⟩)]⟩ : SessionManager String)) "a"
      = (Except.error ErrSessionNotFound,
          runTasks 6000000000 [("b", ⟨[], 2000000000⟩), ("a", ⟨[("x", "1")], 0⟩)]
            (⟨[("a", ⟨[("x", "1")], 0⟩), ("b", ⟨[], 2000000000⟩)]⟩ : SessionManager String)) :=
  (sweep_cycle_spec
    (⟨[("a", ⟨[("x", "1")], 0⟩), ("b", ⟨[], 2000000000⟩)]⟩ : SessionManager String)
    6000000000 [("b", ⟨[], 2000000000⟩), ("a", ⟨[("x", "1")], 0⟩)]
    (by decide) (List.Perm.swap _ _ _)).2.1 "a" ⟨[("x", "1")], 0⟩ (by decide) (by decide)

/-! ## Sequences of steps -/

theorem mapLookup_step {V : Type} (t : Time) (op : Op V) (m : SessionManager V)
    (k : String) :
    mapLookup (step t op m).sessions k = mapLookup m.sessions k ∨
    mapLookup (step t op m).sessions k = none ∨
    ((op = Op.create (Except.ok k) ∨ ∃ d, op = Op.update k d) ∧
      ∃ d, mapLookup (step t op m).sessions k = some { Data := d, LastUpdate := t }) := by
  cases op with
  | create gen =>
    cases gen with
    | error e => exact Or.inl rfl
    | ok id =>
      by_cases hk : k = id
      · subst hk
        exact Or.inr (Or.inr ⟨Or.inl rfl, [], by simp [step, CreateSession,
          mapLookup_mapStore_self]⟩)
      · exact Or.inl (by simp [step, CreateSession, mapLookup_mapStore_ne _ _ _ k hk])
  | get id =>
    left
    simp only [step, GetSessionData]
    split <;> rfl
  | update id d =>
    cases hid : mapLookup m.sessions id with
    | none => exact Or.inl (by simp [step, UpdateSessionData, hid])
    | some old =>
      by_cases hk : k = id
      · subst hk
        exact Or.inr (Or.inr ⟨Or.inr ⟨d, rfl⟩, d, by simp [step, UpdateSessionData, hid,
          mapLookup_mapStore_self]⟩)
      · exact Or.inl (by simp [step, UpdateSessionData, hid,
          mapLookup_mapStore_ne _ _ _ k hk])
  | handle id snapshot =>
    simp only [step]
    rw [mapLookup_handleSession]
    split_ifs
    · exact Or.inr (Or.inl rfl)
    · exact Or.inl rfl

theorem run_append {V : Type} (pre mid : List (Time × Op V)) (m : SessionManager V) :
    run (pre ++ mid) m = run mid (run pre m) := by
  simp [run, List.foldl_append]

theorem run_lookup_origin {V : Type} (trace : List (Time × Op V)) (m : SessionManager V)
    (k : String) (s : Session V) (h : mapLookup (run trace m).sessions k = some s) :
    mapLookup m.sessions k = some s ∨ ∃ p ∈ trace, s.LastUpdate = p.1 := by
  induction trace generalizing m with
  | nil => exact Or.inl h
  | cons p rest ih =>
    have hunfold : run (p :: rest) m = run rest (step p.1 p.2 m) := rfl
    rw [hunfold] at h
    rcases ih (step p.1 p.2 m) h with hsame | ⟨q, hq, hlu⟩
    · rcases mapLookup_step p.1 p.2 m k with h1 | h2 | ⟨_, d, h3⟩
      · exact Or.inl (h1 ▸ hsame)
      · rw [h2] at hsame
        exact Option.noConfusion hsame
      · rw [h3] at hsame
        have hs : s = { Data := d, LastUpdate := p.1 } := (Option.some.inj hsame).symm
        exact Or.inr ⟨p, List.mem_cons_self _ _, by rw [hs]⟩
    · exact Or.inr ⟨q, List.mem_cons_of_mem _ hq, hlu⟩

/-- C9: take any sequence of steps (`CreateSession`, `GetSessionData`,
`UpdateSessionData`, sweeper tasks) at non-decreasing clock values, from a store
whose records were stamped no later than those clock values.  A key found in the
store at two points of the sequence has, at the later point, a `LastUpdate` at
least as large as at the earlier one.  In one step, the record of a key that stays
in the store is unchanged unless the step is a `CreateSession` returning that key
or an `UpdateSessionData` of that key, and then its `LastUpdate` is the clock value
of the step; `GetSessionData`, a failed `UpdateSessionData` and a sweeper task
change no record that remains. -/
theorem lastUpdate_invariant {V : Type} (m0 : SessionManager V)
    (pre mid : List (Time × Op V))
    (hclock : ((pre ++ mid).map Prod.fst).Pairwise (fun a b => a ≤ b))
    (hinit : ∀ (k : String) (s : Session V), mapLookup m0.sessions k = some s →
      ∀ p ∈ pre ++ mid, s.LastUpdate ≤ p.1) :
    (∀ (k : String) (s s' : Session V),
      mapLookup (run pre m0).sessions k = some s →
      mapLookup (run (pre ++ mid) m0).sessions k = some s' →
      s.LastUpdate ≤ s'.LastUpdate) ∧
    (∀ (m : SessionManager V) (t : Time) (op : Op V) (k : String) (s s' : Session V),
      mapLookup m.sessions k = some s →
      mapLookup (step t op m).sessions k = some s' →
      s' = s ∨ (s'.LastUpdate = t ∧
        (op = Op.create (Except.ok k) ∨ ∃ d, op = Op.update k d))) ∧
    (∀ (m : SessionManager V) (t : Time) (id k : String),
      mapLookup (step t (Op.get id) m).sessions k = mapLookup m.sessions k) ∧
    (∀ (m : SessionManager V) (t : Time) (id : String) (d : List (String × V)) (k : String),
      mapLookup m.sessions id = none →
      mapLookup (step t (Op.update id d) m).sessions k = mapLookup m.sessions k) ∧
    (∀ (m : SessionManager V) (t : Time) (id : String) (snapshot : Session V) (k : String)
      (s' : Session V),
      mapLookup (step t (Op.handle id snapshot) m).sessions k = some s' →
      mapLookup m.sessions k = some s') := by
  refine ⟨?_, ?_, ?_, ?_, ?_⟩
  · intro k s s' hs hs'
    rw [run_append] at hs'
    rcases run_lookup_origin mid (run pre m0) k s' hs' with hsame | ⟨p, hp, hlu⟩
    · rw [hs] at hsame
      rw [Option.some.inj hsame]
    · rw [hlu]
      rcases run_lookup_origin pre m0 k s hs with h0 | ⟨q, hq, hqlu⟩
      · exact hinit k s h0 p (List.mem_append_right _ hp)
      · rw [hqlu]
        rw [List.map_append, List.pairwise_append] at hclock
        exact hclock.2.2 q.1 (List.mem_map.2 ⟨q, hq, rfl⟩) p.1 (List.mem_map.2 ⟨p, hp, rfl⟩)
  · intro m t op k s s' hs hs'
    rcases mapLookup_step t op m k with h1 | h2 | ⟨hop, d, h3⟩
    · rw [h1, hs] at hs'
      exact Or.inl (Option.some.inj hs').symm
    · rw [h2] at hs'
      exact Option.noConfusion hs'
    · rw [h3] at hs'
      have hrec : s' = { Data := d, LastUpdate := t } := (Option.some.inj hs').symm
      exact Or.inr ⟨by rw [hrec], hop⟩
  · intro m t id k
    simp only [step, GetSessionData]
    split <;> rfl
  · intro m t id d k hid
    simp [step, UpdateSessionData, hid]
  · intro m t id snapshot k s' h
    simp only [step] at h
    rw [mapLookup_handleSession] at h
    split_ifs at h
    exact h

theorem lastUpdate_invariant_witness :
    (⟨[], 1⟩ : Session String).LastUpdate ≤ (⟨[("x", "1")], 3⟩ : Session String).LastUpdate :=
  (lastUpdate_invariant (NewSessionManager String)
    [(1, Op.create (Except.ok "a"))]
    [(2, Op.get "a"), (3, Op.update "a" [("x", "1")]), (4, Op.handle "a" ⟨[], 1⟩)]
    (by decide) (by intro k s h; simp [NewSessionManager, mapLookup] at h)).1
    "a" ⟨[], 1⟩ ⟨[("x", "1")], 3⟩ (by decide) (by decide)

/-! ## The sweeper task against an update made after the copy -/

/-- C1: evaluation of the source at a lost update.  Key `K` was last written at 0;
the sweeper copies its record (already stale by 6 s); `UpdateSessionData` then
refreshes `K` at 6.000000001 s; the sweeper task run on the copy one nanosecond
later removes `K`, although the record in the store is 1 ns old. -/
theorem lost_update_under_sweep :
    mapLookup (UpdateSessionData 6000000001
        (⟨[("K", ⟨[], 0⟩)]⟩ : SessionManager String) "K" [("website", "example.com")]).2.sessions
        "K" = some ⟨[("website", "example.com")], 6000000001⟩ ∧
    (6000000002 : Time) - 6000000001 ≤ cachedTime ∧
    mapLookup (HandleSession 6000000002
        (UpdateSessionData 6000000001
          (⟨[("K", ⟨[], 0⟩)]⟩ : SessionManager String) "K" [("website", "example.com")]).2
        "K" ⟨[], 0⟩).sessions "K" = none := by
  decide

end SessionCleaner

namespace LimitServiceTime

/-- C10: evaluation of the source on a non-premium user.  With `TimeUsed = 5` the
timer is set to the full 10 s, not to the 5 s that remain; a process that runs 7 s
completes and leaves `TimeUsed = 12`; and when the timer fires first (a process of
11 s, `TimeUsed = 0`), `TimeUsed` is set to 10000000000, the budget in nanoseconds. -/
theorem handleRequest_budget_exceeded :
    deadline ⟨1, false, 5⟩ = 10 * Second ∧
    HandleRequest (some (7 * Second)) ⟨1, false, 5⟩ = some (true, ⟨1, false, 12⟩) ∧
    HandleRequest (some (11 * Second)) ⟨1, false, 0⟩
      = some (false, ⟨1, false, 10000000000⟩) := by
  decide

end LimitServiceTime
